import Mathlib

/-!
Verification development for the blackjack Q-learning trainer.

Each definition below is a shallow embedding of a function of the C++
source (file and symbol given in its doc comment).  Machine integers are
modelled as `Nat`/`Int`, `double` values that the claims reason about as
`ℚ`, fallible operations (C++ exceptions, out-of-deck deals) as `Option`,
and the Mersenne-Twister engines as explicit streams of draws (the values
the engine would produce; the engines are seeded from `std::random_device`
in the source, so the streams are inputs of the model, not functions of
any configuration value).
-/


namespace Blackjack

/-- Card ranks, from `game/Card.hpp` (`enum class Rank`, ACE = 1 .. KING = 13). -/
inductive Rank
  | ACE | TWO | THREE | FOUR | FIVE | SIX | SEVEN | EIGHT | NINE | TEN
  | JACK | QUEEN | KING
deriving DecidableEq

/-- Numeric value of the underlying C++ enum (ACE = 1 .. KING = 13). -/
def Rank.val : Rank → Nat
  | .ACE => 1 | .TWO => 2 | .THREE => 3 | .FOUR => 4 | .FIVE => 5 | .SIX => 6
  | .SEVEN => 7 | .EIGHT => 8 | .NINE => 9 | .TEN => 10 | .JACK => 11
  | .QUEEN => 12 | .KING => 13

/-- Card suits, from `game/Card.hpp` (`enum class Suit`). -/
inductive Suit
  | HEARTS | DIAMONDS | CLUBS | SPADES
deriving DecidableEq

/-- A playing card, from `game/Card.hpp` (`class Card`). -/
structure Card where
  rank : Rank
  suit : Suit
deriving DecidableEq

/-- Embeds `Card::getValue` from `game/Card.hpp`: 10 for TEN and face cards, the
rank value otherwise (Ace is worth 1 here; softness handled by Hand). -/
def Card.getValue (c : Card) : Nat :=
  if 10 ≤ c.rank.val then 10 else c.rank.val

/-- Embeds `Card::isAce` from `game/Card.hpp`. -/
def Card.isAce (c : Card) : Bool :=
  c.rank = Rank.ACE

/-- A hand is the ordered card vector `cards_` of `game/Hand.hpp`. -/
abbrev Hand := List Card

/-- Embeds `Hand::Value` from `game/Hand.hpp`. -/
structure HandValue where
  total : Nat
  isSoft : Bool
deriving DecidableEq

/-- The second pass of `Hand::getValue` (`game/Hand.cpp` lines 27-30):
`while (total > 21 && aces > 0) { total -= 10; aces--; }`.  Returns the
final total together with the number of aces still counted as 11. -/
def adjustAces : Nat → Nat → Nat × Nat
  | total, 0 => (total, 0)
  | total, aces + 1 =>
    if 21 < total then adjustAces (total - 10) aces else (total, aces + 1)

/-- First pass of `Hand::getValue` (`game/Hand.cpp` lines 16-24): sum the
cards counting every ace as 11, and count the aces. -/
def firstPass (cards : Hand) : Nat × Nat :=
  cards.foldl
    (fun acc c => if c.isAce then (acc.1 + 11, acc.2 + 1) else (acc.1 + c.getValue, acc.2))
    (0, 0)

/-- Embeds `Hand::getValue` from `game/Hand.cpp`: two-pass ace adjustment;
`isSoft = (aces > 0) && (total <= 21)` on the adjusted result. -/
def Hand.getValue (cards : Hand) : HandValue :=
  let fp := firstPass cards
  let adj := adjustAces fp.1 fp.2
  { total := adj.1, isSoft := decide (0 < adj.2) && decide (adj.1 ≤ 21) }

/-- Embeds `Hand::getTotal` from `game/Hand.hpp`. -/
def Hand.getTotal (cards : Hand) : Nat :=
  (Hand.getValue cards).total

/-- Embeds `Hand::isSoft` from `game/Hand.hpp`. -/
def Hand.isSoft (cards : Hand) : Bool :=
  (Hand.getValue cards).isSoft

/-- Embeds `Hand::isBust` from `game/Hand.hpp`: `getTotal() > 21`. -/
def Hand.isBust (cards : Hand) : Bool :=
  decide (21 < Hand.getTotal cards)

/-- Embeds `Hand::isBlackjack` from `game/Hand.cpp`: exactly two cards totalling 21. -/
def Hand.isBlackjack (cards : Hand) : Bool :=
  if cards.length ≠ 2 then false else decide (Hand.getTotal cards = 21)

/-- Embeds `Hand::canSplit` from `game/Hand.cpp`: two cards of equal rank. -/
def Hand.canSplit (cards : Hand) : Bool :=
  if cards.length ≠ 2 then false
  else decide ((cards.getD 0 ⟨Rank.ACE, Suit.HEARTS⟩).rank
                = (cards.getD 1 ⟨Rank.ACE, Suit.HEARTS⟩).rank)

/-- Embeds `Hand::split` from `game/Hand.cpp`: requires `canSplit`; removes and
returns the second card (the C++ throws otherwise, modelled by `none`). -/
def Hand.splitOff (cards : Hand) : Option (Card × Hand) :=
  if ¬ Hand.canSplit cards then none
  else
    match cards with
    | [a, b] => some (b, [a])
    | _ => none

/-- Sum of raw card values (aces as 1), the reference quantity for the
hand-value characterisation. -/
def baseSum (cards : Hand) : Nat :=
  (cards.map Card.getValue).sum

/-- Number of aces in the hand. -/
def aceCount (cards : Hand) : Nat :=
  (cards.filter Card.isAce).length

theorem card_getValue_pos (c : Card) : 1 ≤ c.getValue := by
  cases c with
  | mk r s => cases r <;> simp [Card.getValue, Rank.val]

theorem aceCount_le_baseSum (cards : Hand) : aceCount cards ≤ baseSum cards := by
  induction cards with
  | nil => simp [aceCount, baseSum]
  | cons c cs ih =>
    by_cases h : c.isAce = true
    · have hv := card_getValue_pos c
      simp [aceCount, baseSum, h] at ih ⊢
      omega
    · simp [aceCount, baseSum, List.filter_cons, h] at ih ⊢
      omega

theorem firstPass_eq (cards : Hand) :
    firstPass cards = (baseSum cards + 10 * aceCount cards, aceCount cards) := by
  suffices h : ∀ t a, cards.foldl
      (fun acc c => if c.isAce then (acc.1 + 11, acc.2 + 1) else (acc.1 + c.getValue, acc.2))
      (t, a) = (t + baseSum cards + 10 * aceCount cards, a + aceCount cards) by
    simpa [firstPass] using h 0 0
  induction cards with
  | nil => intro t a; simp [baseSum, aceCount]
  | cons c cs ih =>
    intro t a
    by_cases h : c.isAce = true
    · have hval : c.getValue = 1 := by
        cases c with
        | mk r s =>
          simp [Card.isAce] at h
          subst h
          rfl
      simp [h, ih, baseSum, aceCount, hval]
      constructor <;> omega
    · simp [h, ih, baseSum, aceCount, List.filter_cons]
      omega

theorem adjustAces_step (t a : Nat) (h : 21 < t) :
    adjustAces t (a + 1) = adjustAces (t - 10) a := by
  simp only [adjustAces, if_pos h]

theorem adjustAces_spec (n b : Nat) (hnb : n ≤ b) :
    adjustAces (b + 10 * n) n =
      if n = 0 then (b, 0)
      else if b + 10 ≤ 21 then (b + 10, 1) else (b, 0) := by
  induction n generalizing b with
  | zero => simp [adjustAces]
  | succ m ih =>
    cases m with
    | zero =>
      by_cases h : b + 10 ≤ 21
      · have hno : ¬ 21 < b + 10 * 1 := by omega
        simp only [adjustAces, if_neg hno]
        simp [h]
      · have h21 : 21 < b + 10 * 1 := by omega
        rw [adjustAces_step _ _ h21]
        have hsub : b + 10 * 1 - 10 = b := by omega
        rw [hsub]
        simp [adjustAces, h]
    | succ k =>
      have h21 : 21 < b + 10 * (k + 1 + 1) := by omega
      rw [adjustAces_step _ _ h21]
      have hsub : b + 10 * (k + 1 + 1) - 10 = b + 10 * (k + 1) := by omega
      rw [hsub, ih (b := b) (by omega)]
      simp

/-- Closed form for `Hand::getValue`: the total counts one ace as 11 exactly
when that fits under 21, and the hand is soft exactly in that case. -/
theorem hand_getValue_eq (cards : Hand) :
    Hand.getValue cards =
      { total :=
          if 1 ≤ aceCount cards ∧ baseSum cards + 10 ≤ 21
          then baseSum cards + 10 else baseSum cards,
        isSoft := decide (1 ≤ aceCount cards ∧ baseSum cards + 10 ≤ 21) } := by
  have hfp := firstPass_eq cards
  have hadj := adjustAces_spec (aceCount cards) (baseSum cards) (aceCount_le_baseSum cards)
  unfold Hand.getValue
  rw [hfp]
  dsimp only
  rw [hadj]
  by_cases hn : aceCount cards = 0
  · simp [hn]
  · have h1 : 1 ≤ aceCount cards := Nat.one_le_iff_ne_zero.mpr hn
    by_cases hb : baseSum cards + 10 ≤ 21
    · simp [hn, hb, h1]
    · simp [hn, hb, h1]

/-- Claim C6: for every hand built by addCard calls, getValue returns the
ace-adjusted total (sum with one ace promoted to 11 exactly when that stays
at or below 21), isSoft holds exactly when an ace still counts as 11 with
total at most 21 (so isSoft implies total at most 21), isBust holds exactly
when the total exceeds 21, and isBlackjack holds exactly when the hand has
two cards totalling 21. -/
theorem hand_value_invariants (cards : Hand) :
    (Hand.getTotal cards =
      if 1 ≤ aceCount cards ∧ baseSum cards + 10 ≤ 21
      then baseSum cards + 10 else baseSum cards)
    ∧ (Hand.isSoft cards = true ↔ 1 ≤ aceCount cards ∧ baseSum cards + 10 ≤ 21)
    ∧ (Hand.isSoft cards = true → Hand.getTotal cards ≤ 21)
    ∧ (Hand.isBust cards = true ↔ 21 < Hand.getTotal cards)
    ∧ (Hand.isBlackjack cards = true ↔ cards.length = 2 ∧ Hand.getTotal cards = 21) := by
  have hv := hand_getValue_eq cards
  refine ⟨?_, ?_, ?_, ?_, ?_⟩
  · simp [Hand.getTotal, hv]
  · simp [Hand.isSoft, hv]
  · intro hs
    simp [Hand.isSoft, hv] at hs
    simp [Hand.getTotal, hv, hs]
  · simp [Hand.isBust]
  · constructor
    · intro h
      simp [Hand.isBlackjack] at h
      exact ⟨h.1, h.2⟩
    · intro ⟨h1, h2⟩
      simp [Hand.isBlackjack, h1, h2]

/-- Witness for `hand_value_invariants` at the concrete hand Ace-Six
(soft 17): the softness hypothesis of the implication conjunct is
discharged by evaluation. -/
theorem hand_value_invariants_witness :
    Hand.getTotal [⟨Rank.ACE, Suit.HEARTS⟩, ⟨Rank.SIX, Suit.CLUBS⟩] ≤ 21 :=
  (hand_value_invariants [⟨Rank.ACE, Suit.HEARTS⟩, ⟨Rank.SIX, Suit.CLUBS⟩]).2.2.1 (by decide)

/-- RL state from `ai/State.hpp` (`struct State`): player total, dealer
upcard (Ace = 1), softness flag and the two optional capability flags. -/
structure State where
  playerTotal : Int
  dealerUpCard : Int
  hasUsableAce : Bool
  canSplit : Bool := false
  canDouble : Bool := false
deriving DecidableEq

/-- The value of `static_cast<size_t>(i)` for a C++ `int` value `i`
(twos-complement wrap into 64 bits). -/
def castUSize (i : Int) : Nat :=
  (i % (2 ^ 64 : Int)).toNat

/-- Embeds `State::hash` from `ai/State.hpp`:
`(total & 0x1F) | ((dealer & 0x0F) << 5) | (ace << 9) | (split << 10) | (double << 11)`. -/
def State.hash (s : State) : Nat :=
  (castUSize s.playerTotal &&& 0x1F) |||
  ((castUSize s.dealerUpCard &&& 0x0F) <<< 5) |||
  ((if s.hasUsableAce then 1 else 0) <<< 9) |||
  ((if s.canSplit then 1 else 0) <<< 10) |||
  ((if s.canDouble then 1 else 0) <<< 11)

/-- Embeds `State::isValid` from `ai/State.hpp`: player total in [4,21] and dealer
upcard in [1,10]. -/
def State.isValid (s : State) : Bool :=
  decide (4 ≤ s.playerTotal) && decide (s.playerTotal ≤ 21) &&
  decide (1 ≤ s.dealerUpCard) && decide (s.dealerUpCard ≤ 10)

/-- Modelled from the spec: `decode(index)` inverts the bit masks of the
state encoding (section 4.4 of the spec; no decode function exists in the
source tree, only the encoder `State::hash`). -/
def decodeState (h : Nat) : State :=
  { playerTotal := (h &&& 0x1F : Nat)
    dealerUpCard := ((h >>> 5) &&& 0x0F : Nat)
    hasUsableAce := h.testBit 9
    canSplit := h.testBit 10
    canDouble := h.testBit 11 }

set_option maxHeartbeats 1000000 in
theorem pack_eq : ∀ a < 32, ∀ b < 16, ∀ x < 2, ∀ y < 2, ∀ z < 2,
    ((a &&& 31) ||| ((b &&& 15) <<< 5) ||| (x <<< 9) ||| (y <<< 10) ||| (z <<< 11)
        = a + 32 * b + 512 * x + 1024 * y + 2048 * z) := by
  decide

set_option maxHeartbeats 4000000 in
theorem decode_pack : ∀ a < 32, ∀ b < 16, ∀ x < 2, ∀ y < 2, ∀ z < 2,
    decodeState (a + 32 * b + 512 * x + 1024 * y + 2048 * z)
      = ⟨a, b, decide (x = 1), decide (y = 1), decide (z = 1)⟩ := by
  decide

theorem castUSize_of_nonneg (i : Int) (h0 : 0 ≤ i) (h : i < 2 ^ 64) :
    castUSize i = i.toNat := by
  unfold castUSize
  rw [Int.emod_eq_of_lt h0 h]

theorem hash_formula_and_decode (s : State) (hval : s.isValid = true) :
    (State.hash s = s.playerTotal.toNat + 32 * s.dealerUpCard.toNat
        + 512 * (if s.hasUsableAce then 1 else 0)
        + 1024 * (if s.canSplit then 1 else 0)
        + 2048 * (if s.canDouble then 1 else 0))
    ∧ decodeState (State.hash s) = s := by
  obtain ⟨pt, dc, ace, sp, dl⟩ := s
  simp only [State.isValid, Bool.and_eq_true, decide_eq_true_eq] at hval
  obtain ⟨⟨⟨hp4, hp21⟩, hd1⟩, hd10⟩ := hval
  have hp0 : (0 : Int) ≤ pt := by omega
  have hd0 : (0 : Int) ≤ dc := by omega
  have hcp : castUSize pt = pt.toNat := castUSize_of_nonneg _ hp0 (by omega)
  have hcd : castUSize dc = dc.toNat := castUSize_of_nonneg _ hd0 (by omega)
  have hpa : pt.toNat < 32 := by omega
  have hdb : dc.toNat < 16 := by omega
  have hhash : State.hash ⟨pt, dc, ace, sp, dl⟩ = pt.toNat + 32 * dc.toNat
      + 512 * (if ace then 1 else 0)
      + 1024 * (if sp then 1 else 0)
      + 2048 * (if dl then 1 else 0) := by
    unfold State.hash
    simp only
    rw [hcp, hcd]
    exact pack_eq pt.toNat hpa dc.toNat hdb
      (if ace then 1 else 0) (by split <;> omega)
      (if sp then 1 else 0) (by split <;> omega)
      (if dl then 1 else 0) (by split <;> omega)
  have hdec : decodeState (State.hash ⟨pt, dc, ace, sp, dl⟩) = ⟨pt, dc, ace, sp, dl⟩ := by
    rw [hhash]
    rw [decode_pack pt.toNat hpa dc.toNat hdb
      (if ace then 1 else 0) (by split <;> omega)
      (if sp then 1 else 0) (by split <;> omega)
      (if dl then 1 else 0) (by split <;> omega)]
    simp only [State.mk.injEq]
    refine ⟨by omega, by omega, ?_, ?_, ?_⟩
    · cases ace <;> simp
    · cases sp <;> simp
    · cases dl <;> simp
  exact ⟨hhash, hdec⟩

/-- Claim C5: on the valid domain the state encoding equals
`total + (dealer << 5) + (soft << 9) + (split << 10) + (double << 11)`,
decoding inverts it, and hence the encoding is injective on valid states. -/
theorem state_hash_roundtrip (s : State) (hval : s.isValid = true) :
    (State.hash s = s.playerTotal.toNat + 32 * s.dealerUpCard.toNat
        + 512 * (if s.hasUsableAce then 1 else 0)
        + 1024 * (if s.canSplit then 1 else 0)
        + 2048 * (if s.canDouble then 1 else 0))
    ∧ decodeState (State.hash s) = s
    ∧ ∀ t : State, t.isValid = true → State.hash t = State.hash s → t = s := by
  obtain ⟨hhash, hdec⟩ := hash_formula_and_decode s hval
  refine ⟨hhash, hdec, ?_⟩
  intro t htval hth
  calc t = decodeState (State.hash t) := (hash_formula_and_decode t htval).2.symm
    _ = decodeState (State.hash s) := by rw [hth]
    _ = s := hdec

/-- Witness for `state_hash_roundtrip` at the concrete valid state
(16, 10, hard, can split, can double). -/
theorem state_hash_roundtrip_witness :
    decodeState (State.hash ⟨16, 10, false, true, true⟩) = ⟨16, 10, false, true, true⟩ :=
  (state_hash_roundtrip ⟨16, 10, false, true, true⟩ (by decide)).2.1

/-- Actions, from `ai/Agent.hpp` (`enum class Action`, HIT = 0 .. SPLIT = 3).
Other translation units (`ai/GameStateConverter.hpp`, the evaluator and the
basic-strategy table) additionally reference `Action::SURRENDER`; it is
embedded here with the next index, 4. -/
inductive Action
  | HIT | STAND | DOUBLE | SPLIT | SURRENDER
deriving DecidableEq

/-- The value of `static_cast<size_t>(action)`. -/
def Action.index : Action → Nat
  | .HIT => 0
  | .STAND => 1
  | .DOUBLE => 2
  | .SPLIT => 3
  | .SURRENDER => 4

/-- Embeds `PolicyTable::NUM_ACTIONS` from `ai/PolicyTable.hpp` line 19. -/
def NUM_ACTIONS : Nat := 4

/-- Embeds `PolicyTable::QValues` (`std::array<double, NUM_ACTIONS>`): one stored
Q-value per index 0..3. -/
structure QValues where
  v0 : ℚ
  v1 : ℚ
  v2 : ℚ
  v3 : ℚ
deriving DecidableEq

/-- Array indexing of a `QValues` row.  Index 4 (`Action::SURRENDER`) is an
out-of-bounds read of the `std::array<double, 4>` in the source (undefined
behaviour there); it is modelled as 0 and is never exercised by the
verified properties. -/
def QValues.idx (q : QValues) : Nat → ℚ
  | 0 => q.v0
  | 1 => q.v1
  | 2 => q.v2
  | 3 => q.v3
  | _ => 0

/-- Value initialisation of `QValues` (`table_[state]` on a missing key
value-initialises the row, zeroing all four doubles). -/
def QValues.zero : QValues := ⟨0, 0, 0, 0⟩

/-- Store one value at an index of a `QValues` row. -/
def QValues.setIdx (q : QValues) (i : Nat) (v : ℚ) : QValues :=
  match i with
  | 0 => { q with v0 := v }
  | 1 => { q with v1 := v }
  | 2 => { q with v2 := v }
  | 3 => { q with v3 := v }
  | _ => q

/-- Embeds `std::numeric_limits<double>::lowest()`, the exact value
`-((2^53 - 1) * 2^971)` written out as a literal, used as the
running-maximum seed in `PolicyTable::getMaxAction` and
`PolicyTable::getMaxQ`. -/
def numericLowest : ℚ :=
  -179769313486231570814527423731704356798070567525844996598917476803157260780028538760589558632766878171540458953514382464234321326889464182768467546703537516986049910576551282076245490090389328944075868508455133942304583236903222948165808559332123348274797826204144723168738177180919299881250404026184124858368

/-- Embeds `PolicyTable` from `ai/PolicyTable.hpp`: sparse map from states to
Q-value rows (the `std::unordered_map` is modelled as an association list;
its iteration order is unspecified in the source, matching the list order
here) plus the default value returned for unvisited states. -/
structure PolicyTable where
  entries : List (State × QValues)
  defaultValue : ℚ
deriving DecidableEq

/-- Lookup of `table_.find(state)`. -/
def PolicyTable.find (t : PolicyTable) (s : State) : Option QValues :=
  (t.entries.find? (fun e => decide (e.1 = s))).map Prod.snd

/-- Embeds `PolicyTable::get` from `ai/PolicyTable.hpp`: default for unvisited
states, otherwise the row entry at the action index. -/
def PolicyTable.get (t : PolicyTable) (s : State) (a : Action) : ℚ :=
  match t.find s with
  | none => t.defaultValue
  | some row => row.idx a.index

/-- Embeds `PolicyTable::set` from `ai/PolicyTable.hpp`:
`table_[state][index] = value`; a missing key is value-initialised first. -/
def PolicyTable.set (t : PolicyTable) (s : State) (a : Action) (v : ℚ) : PolicyTable :=
  match t.find s with
  | none => { t with entries := t.entries ++ [(s, QValues.zero.setIdx a.index v)] }
  | some row =>
    { t with entries :=
        t.entries.map (fun e => if e.1 = s then (s, row.setIdx a.index v) else e) }

/-- Embeds `PolicyTable::getAll` from `ai/PolicyTable.hpp`. -/
def PolicyTable.getAll (t : PolicyTable) (s : State) : QValues :=
  match t.find s with
  | none => ⟨t.defaultValue, t.defaultValue, t.defaultValue, t.defaultValue⟩
  | some row => row

/-- Embeds `PolicyTable::getMaxAction` from `ai/PolicyTable.hpp` lines 69-83:
running maximum seeded with `numeric_limits<double>::lowest()` and best
action seeded with `validActions[0]`; strict `>` keeps the first maximiser.
Reading `validActions[0]` of an empty vector is undefined behaviour in the
source; the callers guard non-emptiness, and the model returns `none`. -/
def PolicyTable.getMaxAction (t : PolicyTable) (s : State) (validActions : List Action) :
    Option Action :=
  match validActions with
  | [] => none
  | a0 :: _ =>
    some (validActions.foldl
      (fun acc a => if t.get s a > acc.1 then (t.get s a, a) else acc)
      (numericLowest, a0)).2

/-- Embeds `PolicyTable::getMaxQ` from `ai/PolicyTable.hpp` lines 88-98. -/
def PolicyTable.getMaxQ (t : PolicyTable) (s : State) (validActions : List Action) : ℚ :=
  validActions.foldl (fun m a => max m (t.get s a)) numericLowest

/-- Embeds `PolicyTable::size` from `ai/PolicyTable.hpp`. -/
def PolicyTable.size (t : PolicyTable) : Nat :=
  t.entries.length

/-- Embeds `QLearningAgent::Hyperparameters` from `ai/QLearningAgent.hpp`. -/
structure Hyperparameters where
  learningRate : ℚ := 1 / 10
  discountFactor : ℚ := 19 / 20
  epsilon : ℚ := 1
  epsilonDecay : ℚ := 99995 / 100000
  epsilonMin : ℚ := 1 / 100

/-- Embeds `Hyperparameters::isValid` from `ai/QLearningAgent.hpp` lines 22-27. -/
def Hyperparameters.isValid (p : Hyperparameters) : Bool :=
  decide (0 < p.learningRate) && decide (p.learningRate ≤ 1) &&
  decide (0 ≤ p.discountFactor) && decide (p.discountFactor ≤ 1) &&
  decide (0 ≤ p.epsilon) && decide (p.epsilon ≤ 1) &&
  decide (0 < p.epsilonDecay) && decide (p.epsilonDecay ≤ 1) &&
  decide (0 ≤ p.epsilonMin) && decide (p.epsilonMin ≤ p.epsilon)

/-- Embeds `Experience` from `ai/Agent.hpp` lines 33-42: the five fields
`(state, action, reward, nextState, done)`.  The struct stores no list of
valid next actions. -/
structure Experience where
  state : State
  action : Action
  reward : ℚ
  nextState : State
  done : Bool
deriving DecidableEq

/-- Mutable state of a `QLearningAgent` (`ai/QLearningAgent.hpp`): the
hyperparameters, the Q-table, the current exploration rate and the step
counter.  The `std::mt19937` engine is not part of this record; its draw
stream is passed explicitly to the action-selection functions. -/
structure QLearningAgent where
  params : Hyperparameters
  qTable : PolicyTable
  epsilon : ℚ
  stepCount : Nat

/-- Embeds `QLearningAgent::QLearningAgent` from `ai/QLearningAgent.cpp` lines
9-15: Q-table default 0, epsilon initialised from the hyperparameters,
step counter 0; invalid hyperparameters throw (`none`). -/
def QLearningAgent.make (params : Hyperparameters) : Option QLearningAgent :=
  if params.isValid then
    some { params := params, qTable := ⟨[], 0⟩, epsilon := params.epsilon, stepCount := 0 }
  else none

/-- Embeds `QLearningAgent::decayEpsilon` from `ai/QLearningAgent.cpp` lines
151-154: `epsilon *= decay; epsilon = max(epsilon, epsilonMin)`. -/
def QLearningAgent.decayEpsilon (a : QLearningAgent) : QLearningAgent :=
  { a with epsilon := max (a.epsilon * a.params.epsilonDecay) a.params.epsilonMin }

/-- Embeds `QLearningAgent::learn` from `ai/QLearningAgent.cpp` lines 31-56.  For
a non-terminal experience the target uses
`getMaxQ(nextState, {HIT, STAND, DOUBLE, SPLIT})` — the hard-coded list of
all four enum actions, since `Experience` stores no valid-action list.
Afterwards epsilon decays and the step counter increments. -/
def QLearningAgent.learn (a : QLearningAgent) (e : Experience) : QLearningAgent :=
  let currentQ := a.qTable.get e.state e.action
  let allActions : List Action := [Action.HIT, Action.STAND, Action.DOUBLE, Action.SPLIT]
  let targetQ :=
    if e.done then e.reward
    else e.reward + a.params.discountFactor * a.qTable.getMaxQ e.nextState allActions
  let newQ := currentQ + a.params.learningRate * (targetQ - currentQ)
  let a1 := { a with qTable := a.qTable.set e.state e.action newQ }
  { a1.decayEpsilon with stepCount := a1.stepCount + 1 }

/-- The stream of pseudo-random draws an `std::mt19937` engine produces:
uniform-real draws in [0,1) and raw integer draws.  The engines in the
source are seeded from `std::random_device`, so these streams are inputs
of the model and are not determined by any configuration value. -/
structure Rand where
  reals : List ℚ
  ints : List Nat

/-- Embeds `QLearningAgent::greedyAction` from `ai/QLearningAgent.cpp` lines
145-149: delegate to `PolicyTable::getMaxAction`. -/
def QLearningAgent.greedyAction (a : QLearningAgent) (s : State)
    (validActions : List Action) : Option Action :=
  a.qTable.getMaxAction s validActions

/-- Embeds `QLearningAgent::epsilonGreedy` from `ai/QLearningAgent.cpp` lines
131-143: draw a uniform real; below epsilon pick a uniform index into
`validActions`, otherwise the greedy action.  The integer draw is reduced
into `[0, size-1]` as `uniform_int_distribution` guarantees. -/
def QLearningAgent.epsilonGreedy (a : QLearningAgent) (s : State)
    (validActions : List Action) (r : Rand) : Option (Action × Rand) :=
  let rand := r.reals.headD 0
  let r1 : Rand := { r with reals := r.reals.tail }
  if rand < a.epsilon then
    let k := r1.ints.headD 0 % validActions.length
    (validActions.get? k).map (fun act => (act, { r1 with ints := r1.ints.tail }))
  else
    (a.greedyAction s validActions).map (fun act => (act, r1))

/-- Embeds `QLearningAgent::chooseAction` from `ai/QLearningAgent.cpp` lines
17-29: empty valid-action lists throw (`none`); training mode explores
epsilon-greedily, exploit mode is purely greedy. -/
def QLearningAgent.chooseAction (a : QLearningAgent) (s : State)
    (validActions : List Action) (training : Bool) (r : Rand) :
    Option (Action × Rand) :=
  if validActions.isEmpty then none
  else if training then a.epsilonGreedy s validActions r
  else (a.greedyAction s validActions).map (fun act => (act, r))

/-- The epsilon value after n learn calls, starting from the configured
epsilon (each `learn` ends in `decayEpsilon`). -/
def epsSeq (p : Hyperparameters) : Nat → ℚ
  | 0 => p.epsilon
  | n + 1 => max (epsSeq p n * p.epsilonDecay) p.epsilonMin

theorem epsSeq_lower (p : Hyperparameters) (hv : p.isValid = true) :
    ∀ n, p.epsilonMin ≤ epsSeq p n := by
  simp only [Hyperparameters.isValid, Bool.and_eq_true, decide_eq_true_eq] at hv
  intro n
  cases n with
  | zero => exact hv.2
  | succ m => exact le_max_right _ _

/-- Claim C7: with valid hyperparameters each learn call replaces epsilon
by `max(epsilonMin, epsilon * epsilonDecay)`, and across any sequence of
learn calls epsilon is non-increasing and bounded below by epsilonMin. -/
theorem epsilon_decay_monotone (p : Hyperparameters) (hv : p.isValid = true) :
    (∀ (a : QLearningAgent) (e : Experience), a.params = p →
        (a.learn e).epsilon = max (a.epsilon * p.epsilonDecay) p.epsilonMin)
    ∧ (∀ n, epsSeq p (n + 1) ≤ epsSeq p n ∧ p.epsilonMin ≤ epsSeq p n) := by
  have hlow := epsSeq_lower p hv
  simp only [Hyperparameters.isValid, Bool.and_eq_true, decide_eq_true_eq] at hv
  obtain ⟨⟨⟨⟨⟨⟨⟨⟨⟨hlr0, hlr1⟩, hg0⟩, hg1⟩, he0⟩, he1⟩, hd0⟩, hd1⟩, hm0⟩, hme⟩ := hv
  constructor
  · intro a e hp
    simp [QLearningAgent.learn, QLearningAgent.decayEpsilon, hp]
  · intro n
    refine ⟨?_, hlow n⟩
    have h0 : 0 ≤ epsSeq p n := le_trans hm0 (hlow n)
    have hmul : epsSeq p n * p.epsilonDecay ≤ epsSeq p n :=
      mul_le_of_le_one_right h0 hd1
    exact max_le (by simpa [epsSeq] using hmul) (by simpa [epsSeq] using hlow n)

/-- Witness for `epsilon_decay_monotone` at the default hyperparameters. -/
theorem epsilon_decay_monotone_witness :
    epsSeq {} 1 ≤ epsSeq {} 0 ∧ (({} : Hyperparameters)).epsilonMin ≤ epsSeq {} 1 := by
  have h0 := (epsilon_decay_monotone {} (by norm_num [Hyperparameters.isValid])).2 0
  have h1 := (epsilon_decay_monotone {} (by norm_num [Hyperparameters.isValid])).2 1
  exact ⟨by simpa using h0.1, h1.2⟩

theorem getMaxAction_foldl_mem (t : PolicyTable) (s : State) :
    ∀ (l : List Action) (acc : ℚ × Action),
      (l.foldl (fun acc a => if t.get s a > acc.1 then (t.get s a, a) else acc) acc).2 = acc.2
      ∨ (l.foldl (fun acc a => if t.get s a > acc.1 then (t.get s a, a) else acc) acc).2 ∈ l := by
  intro l
  induction l with
  | nil => intro acc; left; rfl
  | cons b bs ih =>
    intro acc
    simp only [List.foldl_cons]
    rcases ih (if t.get s b > acc.1 then (t.get s b, b) else acc) with h | h
    · rw [h]
      by_cases hb : t.get s b > acc.1
      · right; simp [hb]
      · left; simp [hb]
    · right; exact List.mem_cons_of_mem _ h

theorem getMaxAction_mem (t : PolicyTable) (s : State) (va : List Action)
    (h : va ≠ []) : ∃ act, t.getMaxAction s va = some act ∧ act ∈ va := by
  match va, h with
  | a0 :: rest, _ =>
    refine ⟨_, rfl, ?_⟩
    rcases getMaxAction_foldl_mem t s (a0 :: rest) (numericLowest, a0) with h | h
    · rw [h]; exact List.mem_cons_self _ _
    · exact h

/-- Claim C9: with a non-empty valid-action list, chooseAction (in both
training and exploit mode) always returns one of the listed actions. -/
theorem chooseAction_mem (a : QLearningAgent) (s : State) (va : List Action)
    (training : Bool) (r : Rand) (h : va ≠ []) :
    ∃ act r2, a.chooseAction s va training r = some (act, r2) ∧ act ∈ va := by
  have hne : va.isEmpty = false := by
    cases va with
    | nil => exact absurd rfl h
    | cons x xs => rfl
  unfold QLearningAgent.chooseAction
  rw [hne]
  simp only [Bool.false_eq_true, if_false]
  cases training with
  | false =>
    obtain ⟨act, hact, hmem⟩ := getMaxAction_mem a.qTable s va h
    exact ⟨act, r, by simp [QLearningAgent.greedyAction, hact], hmem⟩
  | true =>
    simp only [if_true]
    unfold QLearningAgent.epsilonGreedy
    by_cases hr : r.reals.headD 0 < a.epsilon
    · simp only [hr, if_true]
      have hlen : 0 < va.length := List.length_pos.mpr h
      have hk : r.ints.headD 0 % va.length < va.length := Nat.mod_lt _ hlen
      have hget : va.get? (r.ints.headD 0 % va.length) = some (va.get ⟨_, hk⟩) :=
        List.get?_eq_get hk
      exact ⟨va.get ⟨_, hk⟩, ⟨r.reals.tail, r.ints.tail⟩,
        by rw [hget]; rfl, List.get_mem va _ _⟩
    · simp only [hr, if_false]
      obtain ⟨act, hact, hmem⟩ := getMaxAction_mem a.qTable s va h
      exact ⟨act, ⟨r.reals.tail, r.ints⟩,
        by simp [QLearningAgent.greedyAction, hact], hmem⟩

/-- Witness for `chooseAction_mem` on the single-action list. -/
theorem chooseAction_mem_witness :
    ∃ act r2, QLearningAgent.chooseAction ⟨{}, ⟨[], 0⟩, 1, 0⟩ ⟨16, 10, false, false, false⟩
        [Action.HIT, Action.STAND] true ⟨[0], [1]⟩ = some (act, r2)
      ∧ act ∈ [Action.HIT, Action.STAND] :=
  chooseAction_mem ⟨{}, ⟨[], 0⟩, 1, 0⟩ ⟨16, 10, false, false, false⟩
    [Action.HIT, Action.STAND] true ⟨[0], [1]⟩ (by decide)

/-- Claim C1, evaluation at the failing input: a non-terminal experience
whose next state (18, 10, hard, no split, no double) allows only HIT and
STAND, while the table holds Q = 1 for the invalid DOUBLE.  The source
learn step raises Q(s, HIT) to alpha * gamma * 1 = 19/200, although the
maximum over the actually valid next actions is 0 (so the update dictated
by the specification would leave the value at 0). -/
theorem learn_target_uses_invalid_action :
    ((QLearningAgent.learn
        ⟨{}, ⟨[(⟨18, 10, false, false, false⟩, ⟨0, 0, 1, 0⟩)], 0⟩, 1, 0⟩
        ⟨⟨16, 10, false, true, true⟩, Action.HIT, 0, ⟨18, 10, false, false, false⟩, false⟩).qTable.get
      ⟨16, 10, false, true, true⟩ Action.HIT = 19 / 200)
    ∧ PolicyTable.getMaxQ ⟨[(⟨18, 10, false, false, false⟩, ⟨0, 0, 1, 0⟩)], 0⟩
        ⟨18, 10, false, false, false⟩ [Action.HIT, Action.STAND] = 0
    ∧ PolicyTable.get ⟨[(⟨18, 10, false, false, false⟩, ⟨0, 0, 1, 0⟩)], 0⟩
        ⟨18, 10, false, false, false⟩ Action.DOUBLE = 1
    ∧ (19 / 200 : ℚ) ≠ 0 := by
  refine ⟨?_, ?_, ?_, ?_⟩
  · norm_num [QLearningAgent.learn, QLearningAgent.decayEpsilon, PolicyTable.get,
      PolicyTable.set, PolicyTable.find, PolicyTable.getMaxQ, QValues.idx,
      QValues.setIdx, QValues.zero, Action.index, numericLowest, List.find?]
  · norm_num [PolicyTable.get, PolicyTable.find, PolicyTable.getMaxQ, QValues.idx,
      Action.index, numericLowest, List.find?]
  · norm_num [PolicyTable.get, PolicyTable.find, QValues.idx, Action.index, List.find?]
  · norm_num

/-- Serialized field stream of the binary Q-table format, one constructor
per `file.write` element type in `ai/PolicyTable.cpp`. -/
inductive BinField
  | u32 (v : Nat)
  | u64 (v : Nat)
  | i32 (v : Int)
  | u8 (v : Nat)
  | f64 (v : ℚ)
deriving DecidableEq

/-- Byte value a C++ `bool` serializes to. -/
def boolToU8 (b : Bool) : Nat := if b then 1 else 0

/-- Embeds `PolicyTable::saveToBinary` from `ai/PolicyTable.cpp` lines 9-42:
header `u32 version = 1`, `u64 table size`, then per entry the five state
fields followed by the `NUM_ACTIONS` doubles of the row in index order. -/
def PolicyTable.saveToBinary (t : PolicyTable) : List BinField :=
  [BinField.u32 1, BinField.u64 t.entries.length] ++
  t.entries.foldr (fun e acc =>
    [BinField.i32 e.1.playerTotal, BinField.i32 e.1.dealerUpCard,
     BinField.u8 (boolToU8 e.1.hasUsableAce), BinField.u8 (boolToU8 e.1.canSplit),
     BinField.u8 (boolToU8 e.1.canDouble)]
    ++ (List.range NUM_ACTIONS).map (fun i => BinField.f64 (e.2.idx i))
    ++ acc) []

/-- One record of the serialized format as the amended claim states it:
state header then exactly four Q-values, in the action order HIT, STAND,
DOUBLE, SPLIT. -/
def binaryRecord (e : State × QValues) : List BinField :=
  [BinField.i32 e.1.playerTotal, BinField.i32 e.1.dealerUpCard,
   BinField.u8 (boolToU8 e.1.hasUsableAce), BinField.u8 (boolToU8 e.1.canSplit),
   BinField.u8 (boolToU8 e.1.canDouble),
   BinField.f64 (e.2.idx Action.HIT.index), BinField.f64 (e.2.idx Action.STAND.index),
   BinField.f64 (e.2.idx Action.DOUBLE.index), BinField.f64 (e.2.idx Action.SPLIT.index)]

/-- Recogniser for double fields of the stream. -/
def BinField.isF64 : BinField → Bool
  | .f64 _ => true
  | _ => false

/-- Claim C4 counterexample: for a concrete one-entry table the serialized
stream holds exactly 4 double fields, not the 5 the claim asserts (there
is no SURRENDER column; `NUM_ACTIONS = 4`). -/
theorem saveToBinary_four_doubles :
    ((PolicyTable.saveToBinary ⟨[(⟨16, 10, false, false, false⟩, ⟨1, 2, 3, 4⟩)], 0⟩).countP
      BinField.isF64 = 4)
    ∧ NUM_ACTIONS = 4
    ∧ (4 : Nat) ≠ 5 := by
  refine ⟨by decide, rfl, by decide⟩

/-- Claim C4 as amended: saveToBinary writes a u32 version 1, a u64 entry
count, and one record per stored state of i32 playerTotal, i32
dealerUpCard, three u8 flags, followed by exactly 4 f64 Q-values in the
action order HIT, STAND, DOUBLE, SPLIT. -/
theorem saveToBinary_format (t : PolicyTable) :
    t.saveToBinary = [BinField.u32 1, BinField.u64 t.entries.length]
      ++ t.entries.foldr (fun e acc => binaryRecord e ++ acc) []
    ∧ ∀ e : State × QValues,
        (binaryRecord e).countP BinField.isF64 = 4 ∧ (binaryRecord e).length = 9 := by
  constructor
  · unfold PolicyTable.saveToBinary
    congr 1
  · intro e
    constructor <;> rfl

/-- The 13 ranks in the order of the inner loop of `Deck::initializeDeck`
(`for rank = 1..13`). -/
def allRanks : List Rank :=
  [.ACE, .TWO, .THREE, .FOUR, .FIVE, .SIX, .SEVEN, .EIGHT, .NINE, .TEN,
   .JACK, .QUEEN, .KING]

/-- The 4 suits in the order of the middle loop of `Deck::initializeDeck`
(`for suit = 0..3`). -/
def allSuits : List Suit :=
  [.HEARTS, .DIAMONDS, .CLUBS, .SPADES]

/-- Embeds `Deck::initializeDeck` from `game/Deck.cpp` lines 18-29: numDecks
copies of the 52 cards, deck-major, then suit, then rank. -/
def initializeDeck (numDecks : Nat) : List Card :=
  (List.range numDecks).foldr
    (fun _ acc => allSuits.foldr
      (fun s acc2 => allRanks.map (fun r => ⟨r, s⟩) ++ acc2) [] ++ acc) []

/-- Swap of two positions of `cards_`, the effect of `std::swap` on the
vector (both indices are in range at every call site of the shuffle). -/
def swapList (l : List Card) (i j : Nat) : List Card :=
  match l.get? i, l.get? j with
  | some a, some b => (l.set i b).set j a
  | _, _ => l

/-- The loop of `Deck::shuffle` from `game/Deck.cpp` lines 31-40
(Fisher-Yates): for i from `size-1` down to 1 swap position i with a drawn
position j in [0, i].  Each iteration consumes one engine draw;
`uniform_int_distribution(0, i)` guarantees the drawn j lies in [0, i],
modelled by reducing the raw draw modulo i+1. -/
def fisherYatesAux : List Card → List Nat → Nat → List Card
  | l, _, 0 => l
  | l, [], _ + 1 => l
  | l, d :: ds, i + 1 => fisherYatesAux (swapList l (i + 1) (d % (i + 2))) ds i

/-- The deck from `game/Deck.hpp`: card vector, dealing cursor, deck count
and the stream of engine draws (the `std::mt19937` member, seeded from
`std::random_device` in `Deck::Deck` — the constructor takes no seed). -/
structure Deck where
  cards : List Card
  currentIndex : Nat
  numDecks : Nat
  rngDraws : List Nat
deriving DecidableEq

/-- Embeds `Deck::shuffle` from `game/Deck.cpp`: Fisher-Yates over the card
vector using `size - 1` engine draws; the cursor resets to 0. -/
def Deck.shuffle (d : Deck) : Deck :=
  { d with
    cards := fisherYatesAux d.cards d.rngDraws (d.cards.length - 1)
    rngDraws := d.rngDraws.drop (d.cards.length - 1)
    currentIndex := 0 }

/-- Embeds `Deck::Deck` from `game/Deck.cpp` lines 8-16: zero decks throw;
otherwise build the ordered shoe and shuffle it.  The only construction
parameter of the source constructor is `numDecks`; the engine draws come
from the `std::random_device`-seeded engine. -/
def Deck.make (numDecks : Nat) (rngDraws : List Nat) : Option Deck :=
  if numDecks = 0 then none
  else some (Deck.shuffle
    { cards := initializeDeck numDecks, currentIndex := 0,
      numDecks := numDecks, rngDraws := rngDraws })

/-- Embeds `Deck::deal` from `game/Deck.cpp` lines 42-48: past-the-end deal
throws (`none`); otherwise return the card under the cursor and advance. -/
def Deck.deal (d : Deck) : Option (Card × Deck) :=
  (d.cards.get? d.currentIndex).map
    (fun c => (c, { d with currentIndex := d.currentIndex + 1 }))

/-- Embeds `Deck::needsReshuffle` from `game/Deck.cpp` lines 50-59: penetration
outside [0,1] throws; otherwise compare the cursor against
`static_cast<size_t>(size * penetration)` (truncation = floor for the
non-negative product). -/
def Deck.needsReshuffle (d : Deck) (penetration : ℚ) : Option Bool :=
  if penetration < 0 ∨ 1 < penetration then none
  else some (decide ((((d.cards.length : ℚ) * penetration).floor.toNat) ≤ d.currentIndex))

/-- Embeds `Deck::reset` from `game/Deck.cpp` lines 61-64: rebuild the ordered
shoe and reshuffle (consuming further engine draws). -/
def Deck.reset (d : Deck) : Deck :=
  Deck.shuffle { d with cards := initializeDeck d.numDecks, currentIndex := 0 }

/-- Embeds `Deck::cardsRemaining` from `game/Deck.hpp`. -/
def Deck.cardsRemaining (d : Deck) : Nat :=
  d.cards.length - d.currentIndex

/-- The draw stream that makes every Fisher-Yates swap a no-op
(draw i at loop index i), leaving the shoe in its construction order. -/
def noopDraws : List Nat :=
  (List.range 51).map (fun k => 51 - k)

/-- Claim C8 counterexample: two runs with the identical configuration
(one deck — the constructor has no seed parameter) deal different first
cards when the `std::random_device`-derived engine draws differ, and with
the identical configuration and hyperparameters the training-mode action
choice also differs between two engine-draw streams.  Behaviour is
therefore not a function of configuration plus any fixed seed. -/
theorem fixed_config_runs_differ :
    ((Deck.make 1 (List.replicate 51 0)).bind Deck.deal).map (fun x => x.1)
      ≠ ((Deck.make 1 noopDraws).bind Deck.deal).map (fun x => x.1)
    ∧ (QLearningAgent.chooseAction ⟨{}, ⟨[], 0⟩, 1, 0⟩ ⟨16, 10, false, false, false⟩
        [Action.HIT, Action.STAND] true ⟨[0], [0]⟩).map (fun x => x.1)
      ≠ (QLearningAgent.chooseAction ⟨{}, ⟨[], 0⟩, 1, 0⟩ ⟨16, 10, false, false, false⟩
        [Action.HIT, Action.STAND] true ⟨[0], [1]⟩).map (fun x => x.1) := by
  constructor
  · decide
  · simp only [QLearningAgent.chooseAction, QLearningAgent.epsilonGreedy]
    norm_num
    decide

/-- Claim C8 as amended: exploit-mode (training = false) action selection
is independent of the engine draw stream — evaluation choices are
reproducible — while training-mode behaviour depends on the
`std::random_device`-derived streams exhibited above. -/
theorem exploit_choice_rng_independent (a : QLearningAgent) (s : State)
    (va : List Action) (r1 r2 : Rand) :
    (a.chooseAction s va false r1).map (fun x => x.1)
      = (a.chooseAction s va false r2).map (fun x => x.1) := by
  unfold QLearningAgent.chooseAction
  by_cases h : va.isEmpty
  · simp [h]
  · simp only [h, Bool.false_eq_true, if_false]
    cases a.greedyAction s va <;> rfl

/-- Round outcomes, from `game/BlackjackGame.hpp` (`enum class Outcome`). -/
inductive Outcome
  | PLAYER_WIN | PLAYER_BLACKJACK | DEALER_WIN | PUSH | PLAYER_BUST
  | DEALER_BUST | SURRENDER
deriving DecidableEq

/-- House rules, from `game/GameRules.hpp` (`struct GameRules`). -/
structure GameRules where
  numDecks : Nat := 6
  dealerHitsSoft17 : Bool := true
  blackjackPayout : ℚ := 3 / 2
  doubleAfterSplit : Bool := true
  resplitAces : Bool := false
  maxSplits : Int := 3
  surrender : Bool := false
  penetration : ℚ := 3 / 4
deriving DecidableEq

/-- Round state, from `game/BlackjackGame.hpp` (`class BlackjackGame`
members). -/
structure BlackjackGame where
  rules : GameRules
  deck : Deck
  playerHands : List Hand
  currentHandIndex : Nat
  splitUsed : Bool
  dealerHand : Hand
  roundComplete : Bool
  outcome : Option Outcome
  outcomes : List Outcome
  doubledByHand : List Bool
deriving DecidableEq

/-- Embeds `BlackjackGame::BlackjackGame` from `game/BlackjackGame.cpp` lines
28-32: one empty player hand, cursor state reset.  (The constructor there
passes its seed argument to a `Deck` constructor that does not exist in
`game/Deck.cpp` — the deck of the model is supplied directly.) -/
def BlackjackGame.make (rules : GameRules) (deck : Deck) : BlackjackGame :=
  { rules := rules, deck := deck, playerHands := [[]], currentHandIndex := 0,
    splitUsed := false, dealerHand := [], roundComplete := false,
    outcome := none, outcomes := [], doubledByHand := [] }

/-- Embeds `BlackjackGame::getPlayerHand` from `game/BlackjackGame.cpp`. -/
def BlackjackGame.getPlayerHand (g : BlackjackGame) : Hand :=
  g.playerHands.getD g.currentHandIndex []

/-- Embeds `BlackjackGame::getDealerHand` from `game/BlackjackGame.cpp` lines
161-168: with the hole card hidden only the upcard is visible. -/
def BlackjackGame.getDealerHand (g : BlackjackGame) (hideHoleCard : Bool) : Hand :=
  if hideHoleCard ∧ 2 ≤ g.dealerHand.length then g.dealerHand.take 1 else g.dealerHand

/-- Embeds `BlackjackGame::canDoubleDown` from `game/BlackjackGame.cpp` lines
170-183: never once the round is complete, only on a two-card hand, and
never after a split. -/
def BlackjackGame.canDoubleDown (g : BlackjackGame) : Bool :=
  if g.roundComplete then false
  else if g.getPlayerHand.length ≠ 2 then false
  else if g.splitUsed ∧ 1 < g.playerHands.length then false
  else true

/-- Embeds `BlackjackGame::canSplit` from `game/BlackjackGame.cpp` lines 185-193. -/
def BlackjackGame.canSplit (g : BlackjackGame) : Bool :=
  if g.roundComplete ∨ g.splitUsed then false
  else if g.playerHands.length ≠ 1 then false
  else Hand.canSplit (g.playerHands.getD 0 [])

/-- Embeds `BlackjackGame::canSurrender` from `game/BlackjackGame.cpp` lines
195-203. -/
def BlackjackGame.canSurrender (g : BlackjackGame) : Bool :=
  if g.roundComplete ∨ ¬ g.rules.surrender then false
  else if g.playerHands.length ≠ 1 then false
  else decide ((g.playerHands.getD 0 []).length = 2)

/-- Embeds `BlackjackGame::determineOutcome` from `game/BlackjackGame.cpp` lines
241-272. -/
def BlackjackGame.determineOutcome (g : BlackjackGame) (playerHand : Hand) : Outcome :=
  let playerBlackjack := Hand.isBlackjack playerHand
  let dealerBlackjack := Hand.isBlackjack g.dealerHand
  if playerBlackjack ∧ dealerBlackjack then Outcome.PUSH
  else if playerBlackjack then Outcome.PLAYER_BLACKJACK
  else if dealerBlackjack then Outcome.DEALER_WIN
  else
    let playerTotal := Hand.getTotal playerHand
    let dealerTotal := Hand.getTotal g.dealerHand
    if 21 < playerTotal then Outcome.PLAYER_BUST
    else if 21 < dealerTotal then Outcome.DEALER_BUST
    else if dealerTotal < playerTotal then Outcome.PLAYER_WIN
    else if playerTotal < dealerTotal then Outcome.DEALER_WIN
    else Outcome.PUSH

/-- The loop of `BlackjackGame::playDealerHand` from
`game/BlackjackGame.cpp` lines 218-239: draw while the total is below 17
(or equals a soft 17 under H17 rules), stopping on bust; each iteration
deals one card, so the remaining deck size bounds the recursion (the fuel
argument; an exhausted deal throws, i.e. `none`). -/
def playDealerLoop (hitsSoft17 : Bool) : Nat → Hand → Deck → Option (Hand × Deck)
  | 0, _, _ => none
  | fuel + 1, h, dk =>
    let total := Hand.getTotal h
    let soft := Hand.isSoft h
    let shouldHit := total < 17 ∨ (total = 17 ∧ soft = true ∧ hitsSoft17 = true)
    if shouldHit then
      match dk.deal with
      | none => none
      | some (c, dk2) =>
        let h2 := h ++ [c]
        if Hand.isBust h2 then some (h2, dk2)
        else playDealerLoop hitsSoft17 fuel h2 dk2
    else some (h, dk)

/-- Embeds `BlackjackGame::playDealerHand`, entered with fuel covering the whole
remaining deck. -/
def BlackjackGame.playDealerHand (g : BlackjackGame) : Option BlackjackGame :=
  (playDealerLoop g.rules.dealerHitsSoft17 (g.deck.cardsRemaining + 1)
      g.dealerHand g.deck).map
    (fun p => { g with dealerHand := p.1, deck := p.2 })

/-- Embeds `BlackjackGame::finishRoundAndResolveOutcomes` from
`game/BlackjackGame.cpp` lines 274-282: dealer plays, one outcome per
player hand, first outcome cached, round marked complete. -/
def BlackjackGame.finishRoundAndResolveOutcomes (g : BlackjackGame) :
    Option BlackjackGame :=
  (g.playDealerHand).map (fun g1 =>
    let outs := g1.playerHands.map g1.determineOutcome
    { g1 with outcomes := outs, outcome := outs.head?, roundComplete := true })

/-- Embeds `BlackjackGame::hit` from `game/BlackjackGame.cpp` lines 61-79:
rejected (returns false) once the round is complete; otherwise deal one
card to the current hand, and on bust advance to the next hand or finish. -/
def BlackjackGame.hit (g : BlackjackGame) : Option (Bool × BlackjackGame) :=
  if g.roundComplete then some (false, g)
  else
    match g.deck.deal with
    | none => none
    | some (c, dk) =>
      let cur := g.playerHands.getD g.currentHandIndex [] ++ [c]
      let g1 := { g with deck := dk, playerHands := g.playerHands.set g.currentHandIndex cur }
      if Hand.isBust cur then
        if g1.currentHandIndex + 1 < g1.playerHands.length then
          some (true, { g1 with currentHandIndex := g1.currentHandIndex + 1 })
        else (g1.finishRoundAndResolveOutcomes).map (fun g2 => (true, g2))
      else some (true, g1)

/-- Embeds `BlackjackGame::stand` from `game/BlackjackGame.cpp` lines 81-91:
no effect once the round is complete; otherwise advance or finish. -/
def BlackjackGame.stand (g : BlackjackGame) : Option BlackjackGame :=
  if g.roundComplete then some g
  else if g.currentHandIndex + 1 < g.playerHands.length then
    some { g with currentHandIndex := g.currentHandIndex + 1 }
  else g.finishRoundAndResolveOutcomes

/-- Embeds `BlackjackGame::doubleDown` from `game/BlackjackGame.cpp` lines
93-117: guarded by `canDoubleDown`; mark the hand doubled, deal exactly
one card, then advance or finish (the source if/else branches have
identical bodies, reproduced collapsed). -/
def BlackjackGame.doubleDown (g : BlackjackGame) : Option (Bool × BlackjackGame) :=
  if ¬ g.canDoubleDown then some (false, g)
  else
    let g0 := { g with doubledByHand := g.doubledByHand.set g.currentHandIndex true }
    match g0.deck.deal with
    | none => none
    | some (c, dk) =>
      let cur := g0.playerHands.getD g0.currentHandIndex [] ++ [c]
      let g1 := { g0 with deck := dk,
                          playerHands := g0.playerHands.set g0.currentHandIndex cur }
      if g1.currentHandIndex + 1 < g1.playerHands.length then
        some (true, { g1 with currentHandIndex := g1.currentHandIndex + 1 })
      else (g1.finishRoundAndResolveOutcomes).map (fun g2 => (true, g2))

/-- Embeds `BlackjackGame::surrender` from `game/BlackjackGame.cpp` lines
119-127: guarded by `canSurrender`; completes the round with the single
SURRENDER outcome. -/
def BlackjackGame.surrender (g : BlackjackGame) : Option (Bool × BlackjackGame) :=
  if ¬ g.canSurrender then some (false, g)
  else some (true, { g with outcome := some Outcome.SURRENDER,
                            outcomes := [Outcome.SURRENDER], roundComplete := true })

/-- Embeds `BlackjackGame::split` from `game/BlackjackGame.cpp` lines 129-148:
guarded by `canSplit`; move the second card into a new hand, deal one card
to the new hand first and then one to the original, extend the doubled
flags, set the split flag and return to hand 0. -/
def BlackjackGame.split (g : BlackjackGame) : Option (Bool × BlackjackGame) :=
  if ¬ g.canSplit then some (false, g)
  else
    match Hand.splitOff (g.playerHands.getD 0 []) with
    | none => none
    | some (secondCard, firstRest) =>
      match g.deck.deal with
      | none => none
      | some (c1, dk1) =>
        match dk1.deal with
        | none => none
        | some (c2, dk2) =>
          let secondHand := [secondCard] ++ [c1]
          let first2 := firstRest ++ [c2]
          some (true,
            { g with
              deck := dk2,
              playerHands := (g.playerHands.set 0 first2) ++ [secondHand],
              doubledByHand := g.doubledByHand ++ [false],
              splitUsed := true,
              currentHandIndex := 0 })

/-- Embeds `BlackjackGame::checkAndReshuffle` from `game/BlackjackGame.cpp` lines
284-288. -/
def BlackjackGame.checkAndReshuffle (g : BlackjackGame) : Option BlackjackGame :=
  (g.deck.needsReshuffle g.rules.penetration).map (fun b =>
    if b then { g with deck := g.deck.reset } else g)

/-- Embeds `BlackjackGame::startRound` from `game/BlackjackGame.cpp` lines 34-59:
reshuffle check, deal two cards to the player then two to the dealer,
reset the per-round state, and complete immediately on a natural
blackjack. -/
def BlackjackGame.startRound (g : BlackjackGame) : Option BlackjackGame := do
  let gr ← g.checkAndReshuffle
  let (c1, dk1) ← gr.deck.deal
  let (c2, dk2) ← dk1.deal
  let single : Hand := [c1, c2]
  let (d1, dk3) ← dk2.deal
  let (d2, dk4) ← dk3.deal
  let dealer : Hand := [d1, d2]
  let g1 : BlackjackGame :=
    { gr with deck := dk4, playerHands := [single], dealerHand := dealer,
              currentHandIndex := 0, splitUsed := false, roundComplete := false,
              outcome := none, outcomes := [], doubledByHand := [false] }
  if Hand.isBlackjack single ∨ Hand.isBlackjack dealer then
    let oc := g1.determineOutcome single
    pure { g1 with roundComplete := true, outcome := some oc, outcomes := [oc] }
  else
    pure g1

/-- Claim C10: once a round is complete every player-action method is
rejected without modifying any game state — hit, doubleDown, split and
surrender return false on the unchanged game, stand returns without
effect, and the three capability guards all report false. -/
theorem complete_round_rejects_actions (g : BlackjackGame)
    (h : g.roundComplete = true) :
    g.hit = some (false, g)
    ∧ g.stand = some g
    ∧ g.doubleDown = some (false, g)
    ∧ g.split = some (false, g)
    ∧ g.surrender = some (false, g)
    ∧ g.canDoubleDown = false
    ∧ g.canSplit = false
    ∧ g.canSurrender = false := by
  have hdd : g.canDoubleDown = false := by simp [BlackjackGame.canDoubleDown, h]
  have hsp : g.canSplit = false := by simp [BlackjackGame.canSplit, h]
  have hsu : g.canSurrender = false := by simp [BlackjackGame.canSurrender, h]
  refine ⟨?_, ?_, ?_, ?_, ?_, hdd, hsp, hsu⟩
  · simp [BlackjackGame.hit, h]
  · simp [BlackjackGame.stand, h]
  · simp [BlackjackGame.doubleDown, hdd]
  · simp [BlackjackGame.split, hsp]
  · simp [BlackjackGame.surrender, hsu]

/-- Witness for `complete_round_rejects_actions` on a concrete completed
game. -/
theorem complete_round_rejects_actions_witness :
    (BlackjackGame.surrender
      { BlackjackGame.make {} ⟨[], 0, 1, []⟩ with roundComplete := true })
      = some (false, { BlackjackGame.make {} ⟨[], 0, 1, []⟩ with roundComplete := true }) :=
  (complete_round_rejects_actions
    { BlackjackGame.make {} ⟨[], 0, 1, []⟩ with roundComplete := true } rfl).2.2.2.2.1

/-- Embeds `GameStateConverter::toAIState` from `ai/GameStateConverter.hpp` lines
17-35: dealer with no cards throws; upcard value with Ace as 1; the split
and double flags are and-ed with the capabilities supplied by the round
engine. -/
def toAIState (playerHand dealerHand : Hand) (allowSplit allowDouble : Bool) :
    Option State :=
  match dealerHand with
  | [] => none
  | c :: _ =>
    let v := Hand.getValue playerHand
    let dealerUpCard : Int := if c.isAce then 1 else c.getValue
    some { playerTotal := (v.total : Int), dealerUpCard := dealerUpCard,
           hasUsableAce := v.isSoft,
           canSplit := allowSplit && Hand.canSplit playerHand,
           canDouble := allowDouble && decide (playerHand.length = 2) }

/-- Embeds `GameStateConverter::getValidActions` from `ai/GameStateConverter.hpp`
lines 37-55: HIT and STAND always; DOUBLE on an allowed two-card hand;
SPLIT on an allowed pair; SURRENDER on an allowed two-card hand. -/
def getValidActions (playerHand : Hand)
    (allowSplit allowDouble allowSurrender : Bool) : List Action :=
  [Action.HIT, Action.STAND]
  ++ (if allowDouble ∧ playerHand.length = 2 then [Action.DOUBLE] else [])
  ++ (if allowSplit ∧ Hand.canSplit playerHand then [Action.SPLIT] else [])
  ++ (if allowSurrender ∧ playerHand.length = 2 then [Action.SURRENDER] else [])

/-- Embeds `GameStateConverter::executeAction` from `ai/GameStateConverter.hpp`
lines 58-76; a rejected DOUBLE falls back to HIT. -/
def executeAction (a : Action) (g : BlackjackGame) : Option (Bool × BlackjackGame) :=
  match a with
  | .HIT => g.hit
  | .STAND => g.stand.map (fun g2 => (true, g2))
  | .DOUBLE =>
    match g.doubleDown with
    | none => none
    | some (ok, g2) => if ok then some (true, g2) else g2.hit
  | .SPLIT => g.split
  | .SURRENDER => g.surrender

/-- Embeds `GameStateConverter::outcomeToReward` from `ai/GameStateConverter.hpp`
lines 79-103: blackjack 1.5, win or dealer bust 1, push 0, loss or bust
-1, surrender -0.5; doubling multiplies by 2. -/
def outcomeToReward (o : Outcome) (wasDoubled : Bool) : ℚ :=
  let r : ℚ :=
    match o with
    | .PLAYER_BLACKJACK => 3 / 2
    | .PLAYER_WIN | .DEALER_BUST => 1
    | .PUSH => 0
    | .DEALER_WIN | .PLAYER_BUST => -1
    | .SURRENDER => -(1 / 2)
  if wasDoubled then r * 2 else r

/-- The final-reward loop of `Trainer::finishEpisode`
(`training/Trainer.cpp` lines 223-227): sum over hands of
`outcomeToReward(outcomes[i], i < wasDoubledByHand.size() && wasDoubledByHand[i])`
(the bounds-guarded flag read is `getD i false`). -/
def finalRewardOf (outcomes : List Outcome) (wasDoubledByHand : List Bool) : ℚ :=
  outcomes.enum.foldl
    (fun acc io => acc + outcomeToReward io.2 (wasDoubledByHand.getD io.1 false)) 0

/-- The reward-assignment loop of `Trainer::finishEpisode`
(`training/Trainer.cpp` lines 229-231):
`experiences[i].reward = (i + 1 == experiences.size()) ? finalReward : 0`. -/
def assignRewards (experiences : List Experience) (finalReward : ℚ) : List Experience :=
  experiences.mapIdx
    (fun i e => { e with reward := if i + 1 = experiences.length then finalReward else 0 })

/-- Embeds `Trainer::finishEpisode` from `training/Trainer.cpp` lines 220-236:
the last experience receives the final reward, every earlier one 0, and
the agent learns from the experiences in order.  Returns the agent after
learning together with the reward-assigned experience list. -/
def Trainer.finishEpisode (agent : QLearningAgent) (experiences : List Experience)
    (outcomes : List Outcome) (wasDoubledByHand : List Bool) :
    QLearningAgent × List Experience :=
  ((assignRewards experiences (finalRewardOf outcomes wasDoubledByHand)).foldl
      QLearningAgent.learn agent,
   assignRewards experiences (finalRewardOf outcomes wasDoubledByHand))

/-- The per-hand reward exactly as the claim words it: +1.5 blackjack, +1
win and dealer bust, 0 push, -1 loss and player bust, -0.5 surrender,
doubling multiplies by 2. -/
def specOutcomeReward (o : Outcome) (doubled : Bool) : ℚ :=
  (if doubled then 2 else 1) *
    (match o with
     | .PLAYER_BLACKJACK => 15 / 10
     | .PLAYER_WIN => 1
     | .DEALER_BUST => 1
     | .PUSH => 0
     | .DEALER_WIN => -1
     | .PLAYER_BUST => -1
     | .SURRENDER => -(5 / 10))

theorem outcomeToReward_eq_spec (o : Outcome) (d : Bool) :
    outcomeToReward o d = specOutcomeReward o d := by
  cases o <;> cases d <;> norm_num [outcomeToReward, specOutcomeReward]

theorem finalRewardOf_eq_sum (outcomes : List Outcome) (ds : List Bool) :
    finalRewardOf outcomes ds
      = (outcomes.enum.map (fun io => specOutcomeReward io.2 (ds.getD io.1 false))).sum := by
  unfold finalRewardOf
  suffices h : ∀ (l : List (Nat × Outcome)) (acc : ℚ),
      l.foldl (fun acc io => acc + outcomeToReward io.2 (ds.getD io.1 false)) acc
        = acc + (l.map (fun io => specOutcomeReward io.2 (ds.getD io.1 false))).sum by
    simpa using h outcomes.enum 0
  intro l
  induction l with
  | nil => intro acc; simp
  | cons x xs ih =>
    intro acc
    rw [List.foldl_cons, ih (acc + outcomeToReward x.2 (ds.getD x.1 false)),
      List.map_cons, List.sum_cons, outcomeToReward_eq_spec]
    ring

theorem mapIdx_map_comp {α β γ : Type} (g : β → γ) (f : Nat → α → β) (l : List α) :
    (l.mapIdx f).map g = l.mapIdx (fun i a => g (f i a)) := by
  rw [List.mapIdx_eq_enum_map, List.mapIdx_eq_enum_map, List.map_map]
  rfl

theorem assignRewards_rewards (l : List Experience) (fr : ℚ) (h : l ≠ []) :
    (assignRewards l fr).map Experience.reward
      = List.replicate (l.length - 1) 0 ++ [fr] := by
  have hn : 0 < l.length := List.length_pos.mpr h
  rw [assignRewards, mapIdx_map_comp]
  apply List.ext_getElem
  · simp
    omega
  · intro i h1 h2
    have hi : i < l.length := by simpa using h1
    have hgl := List.get_mapIdx l (fun i e => if i + 1 = l.length then fr else 0) i hi
    simp only [List.get_eq_getElem] at hgl
    rw [hgl]
    by_cases hlast : i + 1 = l.length
    · have hge : (List.replicate (l.length - 1) (0 : ℚ)).length ≤ i := by simp; omega
      rw [List.getElem_append_right hge]
      simp [hlast]
    · have hlt : i < (List.replicate (l.length - 1) (0 : ℚ)).length := by simp; omega
      rw [List.getElem_append_left hlt]
      simp [hlast]

theorem assignRewards_fields (l : List Experience) (fr : ℚ) :
    (assignRewards l fr).map (fun e => (e.state, e.action, e.nextState, e.done))
      = l.map (fun e => (e.state, e.action, e.nextState, e.done)) := by
  rw [assignRewards, mapIdx_map_comp, List.mapIdx_eq_enum_map]
  have hsnd : l.enum.map Prod.snd = l := List.enum_map_snd l
  calc l.enum.map (Function.uncurry fun i e =>
          ((e : Experience).state, e.action, e.nextState, e.done))
      = (l.enum.map Prod.snd).map (fun e => (e.state, e.action, e.nextState, e.done)) := by
        rw [List.map_map]
        rfl
    _ = l.map (fun e => (e.state, e.action, e.nextState, e.done)) := by rw [hsnd]

/-- Claim C2: after the round completes the trainer assigns the final
reward (the sum over hands of the outcome rewards with the double-down
multiplier) to the last captured experience only, zeroes every earlier
reward while leaving all other experience fields untouched, and then the
learned agent is exactly the fold of `learn` over the experiences in
chronological order. -/
theorem finishEpisode_reward_assignment (agent : QLearningAgent)
    (experiences : List Experience) (outcomes : List Outcome)
    (wasDoubledByHand : List Bool) (h : experiences ≠ []) :
    ((Trainer.finishEpisode agent experiences outcomes wasDoubledByHand).2.map
        Experience.reward
      = List.replicate (experiences.length - 1) 0
          ++ [finalRewardOf outcomes wasDoubledByHand])
    ∧ ((Trainer.finishEpisode agent experiences outcomes wasDoubledByHand).2.map
        (fun e => (e.state, e.action, e.nextState, e.done))
      = experiences.map (fun e => (e.state, e.action, e.nextState, e.done)))
    ∧ ((Trainer.finishEpisode agent experiences outcomes wasDoubledByHand).1
      = (Trainer.finishEpisode agent experiences outcomes wasDoubledByHand).2.foldl
          QLearningAgent.learn agent)
    ∧ (finalRewardOf outcomes wasDoubledByHand
      = (outcomes.enum.map
          (fun io => specOutcomeReward io.2 (wasDoubledByHand.getD io.1 false))).sum) := by
  refine ⟨?_, ?_, rfl, finalRewardOf_eq_sum _ _⟩
  · exact assignRewards_rewards experiences _ h
  · exact assignRewards_fields experiences _

/-- Witness for `finishEpisode_reward_assignment` on a one-experience
episode that won a single hand. -/
theorem finishEpisode_reward_assignment_witness :
    (Trainer.finishEpisode ⟨{}, ⟨[], 0⟩, 1, 0⟩
        [⟨⟨20, 10, false, false, true⟩, Action.STAND, 0, ⟨0, 0, false, false, false⟩, true⟩]
        [Outcome.PLAYER_WIN] [false]).2.map Experience.reward
      = List.replicate 0 0 ++ [finalRewardOf [Outcome.PLAYER_WIN] [false]] :=
  (finishEpisode_reward_assignment ⟨{}, ⟨[], 0⟩, 1, 0⟩
    [⟨⟨20, 10, false, false, true⟩, Action.STAND, 0, ⟨0, 0, false, false, false⟩, true⟩]
    [Outcome.PLAYER_WIN] [false] (by decide)).1

/-- Final content of the hard-total map built by
`BasicStrategy::initializeHardStrategy` (`training/Evaluator.cpp` lines
13-78); the builder loops populate dealer keys 2..11 and the surrender
entries overwrite the 13-16 block afterwards. -/
def hardStrategyLookup (p d : Int) : Option Action :=
  if ¬ (2 ≤ d ∧ d ≤ 11) then none
  else if 4 ≤ p ∧ p ≤ 8 then some Action.HIT
  else if p = 9 then some (if 3 ≤ d ∧ d ≤ 6 then Action.DOUBLE else Action.HIT)
  else if p = 10 then some (if 2 ≤ d ∧ d ≤ 9 then Action.DOUBLE else Action.HIT)
  else if p = 11 then some Action.DOUBLE
  else if p = 12 then some (if 4 ≤ d ∧ d ≤ 6 then Action.STAND else Action.HIT)
  else if 13 ≤ p ∧ p ≤ 16 then
    if (p = 15 ∧ d = 10) ∨ (p = 16 ∧ (d = 9 ∨ d = 10 ∨ d = 11))
    then some Action.SURRENDER
    else some (if d ≤ 6 then Action.STAND else Action.HIT)
  else if 17 ≤ p ∧ p ≤ 21 then some Action.STAND
  else none

/-- Final content of the soft-total map built by
`BasicStrategy::initializeSoftStrategy` (`training/Evaluator.cpp` lines
80-106). -/
def softStrategyLookup (p d : Int) : Option Action :=
  if ¬ (2 ≤ d ∧ d ≤ 11) then none
  else if 13 ≤ p ∧ p ≤ 17 then some Action.HIT
  else if p = 18 then some (if d ≤ 8 then Action.STAND else Action.HIT)
  else if 19 ≤ p ∧ p ≤ 21 then some Action.STAND
  else none

/-- Embeds `BasicStrategy::getAction` from `training/Evaluator.cpp` lines
108-129: Ace converts to 11 for the lookup; a missing key falls back to
hit below 17, stand otherwise. -/
def BasicStrategy.getAction (s : State) : Action :=
  let dealerCard : Int := if s.dealerUpCard = 1 then 11 else s.dealerUpCard
  let lookup :=
    if s.hasUsableAce then softStrategyLookup s.playerTotal dealerCard
    else hardStrategyLookup s.playerTotal dealerCard
  match lookup with
  | some a => a
  | none => if s.playerTotal < 17 then Action.HIT else Action.STAND

/-- Embeds `BasicStrategy::isCorrectAction` from `training/Evaluator.cpp` lines
131-141: HIT is accepted where the table prescribes DOUBLE. -/
def BasicStrategy.isCorrectAction (s : State) (a : Action) : Bool :=
  let optimal := BasicStrategy.getAction s
  if optimal = Action.DOUBLE ∧ a = Action.HIT then true
  else decide (a = optimal)

/-- The valid-action list the exhaustive comparison constructs
(`training/Evaluator.cpp` lines 240-252). -/
def compareValidActions (playerTotal dealerCard : Int) (hasUsableAce : Bool) :
    List Action :=
  [Action.HIT, Action.STAND]
  ++ (if 9 ≤ playerTotal ∧ playerTotal ≤ 11 then [Action.DOUBLE] else [])
  ++ (if ¬ hasUsableAce
        ∧ ((playerTotal = 15 ∧ (if dealerCard = 1 then (11 : Int) else dealerCard) = 10)
          ∨ (playerTotal = 16
            ∧ ((if dealerCard = 1 then (11 : Int) else dealerCard) = 9
              ∨ (if dealerCard = 1 then (11 : Int) else dealerCard) = 10
              ∨ (if dealerCard = 1 then (11 : Int) else dealerCard) = 11)))
      then [Action.SURRENDER] else [])

/-- Embeds `Evaluator::compareWithBasicStrategy` from `training/Evaluator.cpp`
lines 230-264: iterate every (total 4..21, dealer 1..10, hard/soft)
state, ask the agent greedily (its `chooseAction` with training = false,
i.e. `getMaxAction`; the constructed lists are never empty, so the
default never fires) and return matches / total. -/
def Evaluator.compareWithBasicStrategy (t : PolicyTable) : ℚ :=
  let counts := (List.range 18).foldl (fun acc pi =>
    (List.range 10).foldl (fun acc2 di =>
      [false, true].foldl (fun acc3 ace =>
        let playerTotal : Int := 4 + pi
        let dealerCard : Int := 1 + di
        let st : State := ⟨playerTotal, dealerCard, ace, false, false⟩
        if st.isValid then
          let va := compareValidActions playerTotal dealerCard ace
          let agentAction := (t.getMaxAction st va).getD Action.HIT
          ((if BasicStrategy.isCorrectAction st agentAction
            then acc3.1 + 1 else acc3.1), acc3.2 + 1)
        else acc3) acc2) acc) ((0 : Nat), (0 : Nat))
  if 0 < counts.2 then (counts.1 : ℚ) / (counts.2 : ℚ) else 0

/-- The player-turn loop of `Evaluator::playGame`
(`training/Evaluator.cpp` lines 211-225): encode the state, build the
valid actions, take the greedy (training = false) choice of the agent —
`chooseAction` throws on an empty list, otherwise returns `getMaxAction` —
and execute it.  Each iteration deals at most finitely many cards, so the
explicit fuel bounds the loop; exhausted fuel models non-termination and
yields `none` like the throwing paths. -/
def playGameLoop (t : PolicyTable) : Nat → BlackjackGame → Option BlackjackGame
  | 0, _ => none
  | fuel + 1, g =>
    if g.roundComplete then some g
    else do
      let st ← toAIState g.getPlayerHand (g.getDealerHand true) g.canSplit g.canDoubleDown
      let va := getValidActions g.getPlayerHand g.canSplit g.canDoubleDown g.canSurrender
      let act ← if va.isEmpty then none else t.getMaxAction st va
      let (_, g2) ← executeAction act g
      playGameLoop t fuel g2

/-- Embeds `Evaluator::playGame` from `training/Evaluator.cpp` lines 204-228. -/
def Evaluator.playGame (t : PolicyTable) (fuel : Nat) (g : BlackjackGame) :
    Option BlackjackGame := do
  let g1 ← g.startRound
  if g1.roundComplete then pure g1
  else playGameLoop t fuel g1

/-- Embeds `EvaluationResult` from `training/Evaluator.hpp`. -/
structure EvaluationResult where
  gamesPlayed : Nat := 0
  wins : Nat := 0
  losses : Nat := 0
  pushes : Nat := 0
  blackjacks : Nat := 0
  busts : Nat := 0
  winRate : ℚ := 0
  lossRate : ℚ := 0
  pushRate : ℚ := 0
  avgReward : ℚ := 0
  bustRate : ℚ := 0
  strategyAccuracy : ℚ := 0

/-- One iteration of the per-outcome switch of `Evaluator::evaluate`
(`training/Evaluator.cpp` lines 159-184): every outcome increments
exactly one of wins, losses, pushes (wins include DEALER_BUST and
PLAYER_BLACKJACK; SURRENDER counts as a loss), with blackjack and bust
side counters. -/
def tallyOutcome (r : EvaluationResult) (o : Outcome) : EvaluationResult :=
  match o with
  | .PLAYER_WIN => { r with wins := r.wins + 1 }
  | .DEALER_BUST => { r with wins := r.wins + 1 }
  | .PLAYER_BLACKJACK => { r with wins := r.wins + 1, blackjacks := r.blackjacks + 1 }
  | .DEALER_WIN => { r with losses := r.losses + 1 }
  | .PLAYER_BUST => { r with losses := r.losses + 1, busts := r.busts + 1 }
  | .PUSH => { r with pushes := r.pushes + 1 }
  | .SURRENDER => { r with losses := r.losses + 1 }

/-- The per-round accumulation of `Evaluator::evaluate` (`training/
Evaluator.cpp` lines 159-186): tally every per-hand outcome of the round
and add its reward (with the bounds-guarded doubled flag). -/
def accumulateOutcomes (acc : EvaluationResult × ℚ) (outcomes : List Outcome)
    (wasDoubled : List Bool) : EvaluationResult × ℚ :=
  outcomes.enum.foldl
    (fun acc2 io =>
      (tallyOutcome acc2.1 io.2, acc2.2 + outcomeToReward io.2 (wasDoubled.getD io.1 false)))
    acc

/-- The game loop of `Evaluator::evaluate` (`training/Evaluator.cpp`
lines 155-187): play `numGames` rounds on the one game object, threading
the accumulated tallies and total reward. -/
def evaluateLoop (t : PolicyTable) (fuel : Nat) :
    Nat → BlackjackGame → EvaluationResult × ℚ →
    Option (BlackjackGame × (EvaluationResult × ℚ))
  | 0, g, acc => some (g, acc)
  | n + 1, g, acc => do
    let g1 ← Evaluator.playGame t fuel g
    evaluateLoop t fuel n g1 (accumulateOutcomes acc g1.outcomes g1.doubledByHand)

/-- Embeds `Evaluator::evaluate` from `training/Evaluator.cpp` lines 147-202:
construct the game (its deck draws come from the seedless
`std::random_device`-seeded engine), play `numGames` rounds accumulating
the outcome tallies, then fill in the rates and, when requested, the
exhaustive strategy accuracy. -/
def Evaluator.evaluate (t : PolicyTable) (rules : GameRules) (deckDraws : List Nat)
    (numGames : Nat) (compareStrategy : Bool) (fuel : Nat) :
    Option EvaluationResult := do
  let dk ← Deck.make rules.numDecks deckDraws
  let g0 := BlackjackGame.make rules dk
  let r ← evaluateLoop t fuel numGames g0 ({ gamesPlayed := numGames }, 0)
  let res := r.2.1
  let totalReward := r.2.2
  let res2 := { res with
    winRate := (res.wins : ℚ) / (numGames : ℚ),
    lossRate := (res.losses : ℚ) / (numGames : ℚ),
    pushRate := (res.pushes : ℚ) / (numGames : ℚ),
    avgReward := totalReward / (numGames : ℚ),
    bustRate := (res.busts : ℚ) / (numGames : ℚ) }
  pure (if compareStrategy
    then { res2 with strategyAccuracy := Evaluator.compareWithBasicStrategy t }
    else res2)

theorem tallyOutcome_sum (r : EvaluationResult) (o : Outcome) :
    (tallyOutcome r o).wins + (tallyOutcome r o).losses + (tallyOutcome r o).pushes
      = r.wins + r.losses + r.pushes + 1 := by
  cases o <;> simp [tallyOutcome] <;> omega

theorem accumulateOutcomes_counts (outcomes : List Outcome) (ds : List Bool)
    (acc : EvaluationResult × ℚ) :
    (accumulateOutcomes acc outcomes ds).1.wins
      + (accumulateOutcomes acc outcomes ds).1.losses
      + (accumulateOutcomes acc outcomes ds).1.pushes
      = acc.1.wins + acc.1.losses + acc.1.pushes + outcomes.length := by
  unfold accumulateOutcomes
  suffices h : ∀ (l : List (Nat × Outcome)) (a : EvaluationResult × ℚ),
      ((l.foldl (fun acc2 io =>
          (tallyOutcome acc2.1 io.2,
           acc2.2 + outcomeToReward io.2 (ds.getD io.1 false))) a).1.wins
        + (l.foldl (fun acc2 io =>
          (tallyOutcome acc2.1 io.2,
           acc2.2 + outcomeToReward io.2 (ds.getD io.1 false))) a).1.losses
        + (l.foldl (fun acc2 io =>
          (tallyOutcome acc2.1 io.2,
           acc2.2 + outcomeToReward io.2 (ds.getD io.1 false))) a).1.pushes)
      = a.1.wins + a.1.losses + a.1.pushes + l.length by
    have := h outcomes.enum acc
    simpa using this
  intro l
  induction l with
  | nil => intro a; simp
  | cons x xs ih =>
    intro a
    simp only [List.foldl_cons, List.length_cons]
    rw [ih]
    dsimp only
    have := tallyOutcome_sum a.1 x.2
    omega

/-- Claim C3 as amended: the evaluator counters grow by one per per-hand
outcome, so after N rounds wins + losses + pushes equals the total number
of per-hand outcomes across the rounds — which is N exactly when every
round produced a single outcome, and exceeds N when a split produced two. -/
theorem evaluate_counts_hands (rounds : List (List Outcome × List Bool))
    (acc : EvaluationResult × ℚ) :
    ((rounds.foldl (fun a r => accumulateOutcomes a r.1 r.2) acc).1.wins
      + (rounds.foldl (fun a r => accumulateOutcomes a r.1 r.2) acc).1.losses
      + (rounds.foldl (fun a r => accumulateOutcomes a r.1 r.2) acc).1.pushes
      = acc.1.wins + acc.1.losses + acc.1.pushes
          + (rounds.map (fun r => r.1.length)).sum)
    ∧ ((∀ r ∈ rounds, r.1.length = 1) →
        (rounds.map (fun r => r.1.length)).sum = rounds.length) := by
  constructor
  · induction rounds generalizing acc with
    | nil => simp
    | cons x xs ih =>
      simp only [List.foldl_cons, List.map_cons, List.sum_cons]
      rw [ih]
      have := accumulateOutcomes_counts x.1 x.2 acc
      omega
  · intro h
    induction rounds with
    | nil => simp
    | cons x xs ih =>
      simp only [List.map_cons, List.sum_cons, List.length_cons]
      rw [h x (List.mem_cons_self _ _), ih (fun r hr => h r (List.mem_cons_of_mem _ hr))]
      omega

/-- Witness for `evaluate_counts_hands` on one split round followed by one
ordinary round. -/
theorem evaluate_counts_hands_witness :
    ([([Outcome.DEALER_BUST, Outcome.DEALER_BUST], [false, false]),
      ([Outcome.PLAYER_WIN], [false])].map (fun r => r.1.length)).sum = 3 := by
  have h := (evaluate_counts_hands
    [([Outcome.DEALER_BUST, Outcome.DEALER_BUST], [false, false]),
     ([Outcome.PLAYER_WIN], [false])] ({}, 0)).1
  decide

/-- The engine draw stream realising the counterexample shoe: identity
(no-op) swaps except the seven that place the pair of eights, the dealer
ten-six and the follow-up tens at the front. -/
def c3Draws : List Nat :=
  (List.range 51).map (fun k =>
    let i := 51 - k
    if i = 22 then 4 else if i = 20 then 1 else if i = 18 then 3
    else if i = 11 then 6 else if i = 10 then 5 else if i = 9 then 2
    else if i = 7 then 0 else i)

/-- The shoe `Deck::Deck(1)` produces under the `c3Draws` engine stream. -/
def c3Shoe : List Card :=
  [⟨.EIGHT, .HEARTS⟩, ⟨.EIGHT, .DIAMONDS⟩, ⟨.TEN, .HEARTS⟩, ⟨.SIX, .DIAMONDS⟩,
   ⟨.TEN, .DIAMONDS⟩, ⟨.JACK, .HEARTS⟩, ⟨.QUEEN, .HEARTS⟩, ⟨.ACE, .HEARTS⟩,
   ⟨.NINE, .HEARTS⟩, ⟨.THREE, .HEARTS⟩, ⟨.SIX, .HEARTS⟩, ⟨.SEVEN, .HEARTS⟩,
   ⟨.KING, .HEARTS⟩, ⟨.ACE, .DIAMONDS⟩, ⟨.TWO, .DIAMONDS⟩, ⟨.THREE, .DIAMONDS⟩,
   ⟨.FOUR, .DIAMONDS⟩, ⟨.FIVE, .DIAMONDS⟩, ⟨.FOUR, .HEARTS⟩, ⟨.SEVEN, .DIAMONDS⟩,
   ⟨.TWO, .HEARTS⟩, ⟨.NINE, .DIAMONDS⟩, ⟨.FIVE, .HEARTS⟩, ⟨.JACK, .DIAMONDS⟩,
   ⟨.QUEEN, .DIAMONDS⟩, ⟨.KING, .DIAMONDS⟩,
   ⟨.ACE, .CLUBS⟩, ⟨.TWO, .CLUBS⟩, ⟨.THREE, .CLUBS⟩, ⟨.FOUR, .CLUBS⟩,
   ⟨.FIVE, .CLUBS⟩, ⟨.SIX, .CLUBS⟩, ⟨.SEVEN, .CLUBS⟩, ⟨.EIGHT, .CLUBS⟩,
   ⟨.NINE, .CLUBS⟩, ⟨.TEN, .CLUBS⟩, ⟨.JACK, .CLUBS⟩, ⟨.QUEEN, .CLUBS⟩,
   ⟨.KING, .CLUBS⟩,
   ⟨.ACE, .SPADES⟩, ⟨.TWO, .SPADES⟩, ⟨.THREE, .SPADES⟩, ⟨.FOUR, .SPADES⟩,
   ⟨.FIVE, .SPADES⟩, ⟨.SIX, .SPADES⟩, ⟨.SEVEN, .SPADES⟩, ⟨.EIGHT, .SPADES⟩,
   ⟨.NINE, .SPADES⟩, ⟨.TEN, .SPADES⟩, ⟨.JACK, .SPADES⟩, ⟨.QUEEN, .SPADES⟩,
   ⟨.KING, .SPADES⟩]

/-- A learned table that splits the pair of eights against a ten and
stands on the resulting eighteens. -/
def c3Table : PolicyTable :=
  ⟨[(⟨16, 10, false, true, true⟩, ⟨0, 0, 0, 1⟩),
    (⟨18, 10, false, false, false⟩, ⟨0, 1, 0, 0⟩)], 0⟩

/-- The game configuration of the counterexample run (one deck, whole
penetration — any configuration refutes the universally quantified
claim). -/
def c3Rules : GameRules :=
  { numDecks := 1, blackjackPayout := 2, penetration := 1 }

/-- The round state right after `startRound` under the counterexample
shoe: the player holds the pair of eights against the dealer ten-six. -/
def c3G1 : BlackjackGame :=
  { rules := c3Rules, deck := ⟨c3Shoe, 4, 1, []⟩,
    playerHands := [[⟨.EIGHT, .HEARTS⟩, ⟨.EIGHT, .DIAMONDS⟩]],
    currentHandIndex := 0, splitUsed := false,
    dealerHand := [⟨.TEN, .HEARTS⟩, ⟨.SIX, .DIAMONDS⟩],
    roundComplete := false, outcome := none, outcomes := [],
    doubledByHand := [false] }

/-- The completed round: after the split both eighteens stand and the
dealer busts with ten-six-queen, giving one DEALER_BUST outcome per hand. -/
def c3G4 : BlackjackGame :=
  { rules := c3Rules, deck := ⟨c3Shoe, 7, 1, []⟩,
    playerHands := [[⟨.EIGHT, .HEARTS⟩, ⟨.JACK, .HEARTS⟩],
                    [⟨.EIGHT, .DIAMONDS⟩, ⟨.TEN, .DIAMONDS⟩]],
    currentHandIndex := 1, splitUsed := true,
    dealerHand := [⟨.TEN, .HEARTS⟩, ⟨.SIX, .DIAMONDS⟩, ⟨.QUEEN, .HEARTS⟩],
    roundComplete := true, outcome := some Outcome.DEALER_BUST,
    outcomes := [Outcome.DEALER_BUST, Outcome.DEALER_BUST],
    doubledByHand := [false, false] }

/-- Claim C3 counterexample: a single evaluated round (N = 1) containing a
split produces two per-hand outcomes, and the evaluator counts both, so
wins + losses + pushes = 2 ≠ 1 = N. -/
theorem evaluate_split_exceeds_games :
    (Evaluator.evaluate c3Table c3Rules c3Draws 1 true 10).map
      (fun r => (r.gamesPlayed, r.wins + r.losses + r.pushes)) = some (1, 2)
    ∧ (2 : Nat) ≠ 1 := by
  refine ⟨?_, by decide⟩
  have hdeck : Deck.make 1 c3Draws = some (⟨c3Shoe, 0, 1, []⟩ : Deck) := by decide
  have hns : Deck.needsReshuffle ⟨c3Shoe, 0, 1, []⟩ (1 : ℚ) = some false := by
    unfold Deck.needsReshuffle
    norm_num [c3Shoe, Rat.floor]
  have hcar : (BlackjackGame.make c3Rules ⟨c3Shoe, 0, 1, []⟩).checkAndReshuffle
      = some (BlackjackGame.make c3Rules ⟨c3Shoe, 0, 1, []⟩) := by
    simp [BlackjackGame.checkAndReshuffle, BlackjackGame.make, c3Rules, hns]
  have h1 : (BlackjackGame.make c3Rules ⟨c3Shoe, 0, 1, []⟩).startRound = some c3G1 := by
    unfold BlackjackGame.startRound
    rw [hcar]
    decide
  have hpg : Evaluator.playGame c3Table 10 (BlackjackGame.make c3Rules ⟨c3Shoe, 0, 1, []⟩)
      = some c3G4 := by
    unfold Evaluator.playGame
    rw [h1]
    decide
  have hloop : evaluateLoop c3Table 10 1 (BlackjackGame.make c3Rules ⟨c3Shoe, 0, 1, []⟩)
        ({ gamesPlayed := 1 }, 0)
      = some (c3G4, accumulateOutcomes ({ gamesPlayed := 1 }, 0)
          [Outcome.DEALER_BUST, Outcome.DEALER_BUST] [false, false]) := by
    unfold evaluateLoop
    rw [hpg]
    rfl
  unfold Evaluator.evaluate
  rw [show c3Rules.numDecks = 1 from rfl, hdeck]
  show Option.map _ (Option.bind (evaluateLoop c3Table 10 1
      (BlackjackGame.make c3Rules ⟨c3Shoe, 0, 1, []⟩) ({ gamesPlayed := 1 }, 0)) _)
    = some (1, 2)
  rw [hloop]
  rfl

end Blackjack
